import Mathlib

/-
Verification of the bufbuild/app-go command core: the Go error model with
exit codes (app.go), the declarative command model and its validation and
run-closure construction (appcmd/appcmd.go), the environment/argument
container utilities (app.go), and the application-name environment prefix
(appext name container).

Modelling conventions: Go errors become the inductive `GoError` (errors.New
and fmt.Errorf without %w are `msg`; fmt.Errorf with %w is `wrap`; the
package's exit-coded error is `app`; the invalid-argument error of appcmd is
`invalidArgument`). A nilable Go error is `Option GoError`. Byte streams are
reified as the list of strings written to them. Go maps that are only
enumerated are association lists.
-/

namespace AppGo

/-- Go error values relevant to this package, as a chain: `msg` is a leaf
error (errors.New / fmt.Errorf without %w), `wrap` is fmt.Errorf with %w,
`app` is the package's appError carrying an exit code and a cause, and
`invalidArgument` is appcmd's invalidArgumentError wrapping a delegate.
The `app` and `invalidArgument` constructors are modelled from the spec:
their Go struct declarations are not among the staged files, only their
constructors, documentation and users are. -/
inductive GoError where
  | msg (text : String)
  | wrap (text : String) (cause : GoError)
  | app (exitCode : Int) (cause : GoError)
  | invalidArgument (cause : GoError)
deriving Repr, DecidableEq

/-- errors.As with target type *appError: walk the unwrap chain outermost
first and return the exit code of the first appError found, if any. -/
def asAppError : GoError → Option Int
  | .app c _ => some c
  | .wrap _ e => asAppError e
  | .invalidArgument e => asAppError e
  | .msg _ => none

/-- GetExitCode (app.go): 0 for nil, the carried code if errors.As finds an
appError in the chain, 1 otherwise. -/
def GetExitCode : Option GoError → Int
  | none => 0
  | some err =>
    match asAppError err with
    | some c => c
    | none => 1

/-- A wrapping layer that is not itself an exit-coded error: fmt.Errorf %w
or the invalid-argument wrapper. -/
inductive WrapLayer where
  | wrap (text : String)
  | invalidArgument
deriving Repr, DecidableEq

/-- Apply wrapping layers around an error, outermost first. -/
def addLayers : List WrapLayer → GoError → GoError
  | [], e => e
  | .wrap t :: ls, e => .wrap t (addLayers ls e)
  | .invalidArgument :: ls, e => .invalidArgument (addLayers ls e)

/-- Whether the unwrap chain of an error contains an exit-coded error. -/
def hasAppInChain : GoError → Bool
  | .msg _ => false
  | .wrap _ e => hasAppInChain e
  | .app _ _ => true
  | .invalidArgument e => hasAppInChain e

theorem asAppError_addLayers (layers : List WrapLayer) (c : Int) (cause : GoError) :
    asAppError (addLayers layers (.app c cause)) = some c := by
  induction layers with
  | nil => rfl
  | cons l ls ih => cases l <;> simpa [addLayers, asAppError] using ih

theorem asAppError_eq_none_of_not_hasApp (e : GoError) (h : hasAppInChain e = false) :
    asAppError e = none := by
  induction e with
  | msg _ => rfl
  | wrap _ _ ih => exact ih (by simpa [hasAppInChain] using h)
  | app _ _ _ => simp [hasAppInChain] at h
  | invalidArgument _ ih => exact ih (by simpa [hasAppInChain] using h)

/-- C1: GetExitCode returns 0 when the error is nil; returns the carried
exit code c when the error is an exit-coded error or wraps one anywhere in
its error chain (for every c ≠ 0, however many wrapping layers are added);
and returns 1 for every other non-nil error. The function is total (never
panics). -/
theorem getExitCode_spec :
    GetExitCode none = 0 ∧
    (∀ (c : Int), c ≠ 0 → ∀ (layers : List WrapLayer) (cause : GoError),
      GetExitCode (some (addLayers layers (.app c cause))) = c) ∧
    (∀ (e : GoError), hasAppInChain e = false → GetExitCode (some e) = 1) := by
  refine ⟨rfl, ?_, ?_⟩
  · intro c _ layers cause
    simp [GetExitCode, asAppError_addLayers]
  · intro e h
    simp [GetExitCode, asAppError_eq_none_of_not_hasApp e h]

/-- Witness for C1 at concrete inputs: code 7 under two wrapping layers, and
a doubly-wrapped plain error with no exit code. -/
theorem getExitCode_spec_witness :
    GetExitCode none = 0 ∧
    GetExitCode (some (addLayers [.wrap "ctx", .invalidArgument] (.app 7 (.msg "boom")))) = 7 ∧
    GetExitCode (some (.wrap "outer" (.msg "other"))) = 1 :=
  ⟨getExitCode_spec.1,
   getExitCode_spec.2.1 7 (by decide) [.wrap "ctx", .invalidArgument] (.msg "boom"),
   getExitCode_spec.2.2 (.wrap "outer" (.msg "other")) rfl⟩

/-- Modelled from the spec: the environment container implementation behind
NewEnvContainer is not among the staged files; only its interface and
documentation are (app.go: Env returns "" when the key is unset or empty,
ForEachEnv iterates the non-empty entries and never yields an empty value,
NewEnvContainer effectively ignores empty values). The underlying Go map is
an association list; iteration order is reified as list order. -/
structure EnvContainerM where
  entries : List (String × String)
deriving Repr, DecidableEq

/-- Env: the raw value for a key, "" when unset (an empty stored value is
returned as "" either way, matching the documented contract). -/
def EnvContainerM.env (c : EnvContainerM) (key : String) : String :=
  match c.entries.find? (fun kv => kv.1 == key) with
  | some kv => kv.2
  | none => ""

/-- ForEachEnv, reified as the list of (key, value) pairs the callback is
invoked on: all entries whose value is non-empty, in iteration order. -/
def EnvContainerM.forEachEnv (c : EnvContainerM) : List (String × String) :=
  c.entries.filter (fun kv => kv.2 != "")

/-- NewEnvContainer (app.go). -/
def NewEnvContainer (m : List (String × String)) : EnvContainerM := ⟨m⟩

/-- Lexicographic comparison of character lists, by code point. Go compares
strings byte-wise; on valid UTF-8, byte-wise order equals code-point
lexicographic order. -/
def goCharListLe : List Char → List Char → Bool
  | [], _ => true
  | _ :: _, [] => false
  | a :: as, b :: bs =>
    if a.toNat < b.toNat then true
    else if b.toNat < a.toNat then false
    else goCharListLe as bs

/-- Lexicographic string comparison (Go's built-in string order). -/
def goStringLe (a b : String) : Bool := goCharListLe a.data b.data

theorem goCharListLe_cons_iff (a b : Char) (as bs : List Char) :
    goCharListLe (a :: as) (b :: bs) = true ↔
      a.toNat < b.toNat ∨ (a.toNat = b.toNat ∧ goCharListLe as bs = true) := by
  rcases Nat.lt_trichotomy a.toNat b.toNat with h | h | h
  · simp [goCharListLe, h]
  · simp [goCharListLe, h, Nat.lt_irrefl]
  · simp [goCharListLe, h, Nat.lt_asymm h, ne_of_gt h]

theorem goCharListLe_total : ∀ (a b : List Char),
    goCharListLe a b = true ∨ goCharListLe b a = true
  | [], _ => Or.inl rfl
  | _ :: _, [] => Or.inr rfl
  | a :: as, b :: bs => by
    rw [goCharListLe_cons_iff, goCharListLe_cons_iff]
    rcases Nat.lt_trichotomy a.toNat b.toNat with h | h | h
    · exact Or.inl (Or.inl h)
    · rcases goCharListLe_total as bs with ih | ih
      · exact Or.inl (Or.inr ⟨h, ih⟩)
      · exact Or.inr (Or.inr ⟨h.symm, ih⟩)
    · exact Or.inr (Or.inl h)

theorem goCharListLe_trans : ∀ (a b c : List Char),
    goCharListLe a b = true → goCharListLe b c = true → goCharListLe a c = true
  | [], _, _, _, _ => rfl
  | _ :: _, [], _, h1, _ => by simp [goCharListLe] at h1
  | _ :: _, _ :: _, [], _, h2 => by simp [goCharListLe] at h2
  | a :: as, b :: bs, c :: cs, h1, h2 => by
    rw [goCharListLe_cons_iff] at h1 h2 ⊢
    rcases h1 with h1 | ⟨e1, r1⟩
    · rcases h2 with h2 | ⟨e2, r2⟩
      · exact Or.inl (Nat.lt_trans h1 h2)
      · exact Or.inl (e2 ▸ h1)
    · rcases h2 with h2 | ⟨e2, r2⟩
      · exact Or.inl (e1 ▸ h2)
      · exact Or.inr ⟨e1.trans e2, goCharListLe_trans as bs cs r1 r2⟩

instance : IsTotal String (fun a b => goStringLe a b = true) :=
  ⟨fun a b => goCharListLe_total a.data b.data⟩

instance : IsTrans String (fun a b => goStringLe a b = true) :=
  ⟨fun a b c => goCharListLe_trans a.data b.data c.data⟩

/-- Environ (app.go): collect "KEY=VALUE" for each ForEachEnv entry, then
sort (sort.Strings; modelled with insertion sort — Go uses a different
sorting algorithm, but any correct sort of strings yields the same list). -/
def Environ (c : EnvContainerM) : List String :=
  List.insertionSort (fun a b => goStringLe a b = true)
    (c.forEachEnv.map (fun kv => kv.1 ++ "=" ++ kv.2))

/-- EnvironMap (app.go): build a map from the ForEachEnv entries, keeping
only those with a non-empty value (the redundant guard in the source). The
resulting Go map is modelled as the association list in insertion order. -/
def EnvironMap (c : EnvContainerM) : List (String × String) :=
  c.forEachEnv.filter (fun kv => kv.2 != "")

/-- C8: Environ returns the environment entries as "KEY=VALUE" strings in
lexicographically sorted order, and every element of the result comes from
an entry whose value is non-empty (so no element encodes an empty value). -/
theorem environ_sorted_and_nonempty (c : EnvContainerM) :
    (Environ c).Sorted (fun a b => goStringLe a b = true) ∧
    ∀ s ∈ Environ c, ∃ kv ∈ c.entries, kv.2 ≠ "" ∧ s = kv.1 ++ "=" ++ kv.2 := by
  constructor
  · exact List.sorted_insertionSort (fun a b => goStringLe a b = true) _
  · intro s hs
    have hmem : s ∈ c.forEachEnv.map (fun kv => kv.1 ++ "=" ++ kv.2) :=
      (List.perm_insertionSort (fun a b => goStringLe a b = true) _).mem_iff.mp hs
    obtain ⟨kv, hkv, heq⟩ := List.mem_map.mp hmem
    have h2 := List.mem_filter.mp hkv
    refine ⟨kv, h2.1, ?_, heq.symm⟩
    simpa using h2.2

/-- Witness for C8 at a concrete container: ["A=1", "B=2"] is the sorted
enumeration of {B ↦ 2, A ↦ 1, C ↦ ""}, and "A=1" comes from the entry
("A", "1"). -/
theorem environ_sorted_and_nonempty_witness :
    ("A=1" ∈ Environ ⟨[("B", "2"), ("A", "1"), ("C", "")]⟩) ∧
    (Environ ⟨[("B", "2"), ("A", "1"), ("C", "")]⟩).Sorted (fun a b => goStringLe a b = true) ∧
    ∃ kv ∈ [("B", "2"), ("A", "1"), ("C", "")], kv.2 ≠ "" ∧ "A=1" = kv.1 ++ "=" ++ kv.2 := by
  refine ⟨by decide, (environ_sorted_and_nonempty _).1,
    (environ_sorted_and_nonempty ⟨[("B", "2"), ("A", "1"), ("C", "")]⟩).2 "A=1" (by decide)⟩

/-- C9: building an environment container from entries and enumerating via
EnvironMap yields the same entries with all empty-valued keys removed; in
particular {A ↦ 1, B ↦ ""} yields {A ↦ 1}. -/
theorem environMap_roundTrip :
    (∀ m : List (String × String),
      EnvironMap (NewEnvContainer m) = m.filter (fun kv => kv.2 != "")) ∧
    EnvironMap (NewEnvContainer [("A", "1"), ("B", "")]) = [("A", "1")] := by
  constructor
  · intro m
    simp [EnvironMap, NewEnvContainer, EnvContainerM.forEachEnv, List.filter_filter]
  · decide

/-- Process container: the environment facet plus opaque stream handles for
stdin/stdout/stderr (newContainer in app.go stores the three stream
interfaces; identity of the handle is what the frame claim is about) and the
argument list. The concrete container implementation files are not staged;
this is modelled from the spec's container description and the constructors
in app.go. -/
structure Container where
  env : EnvContainerM
  stdinId : Nat
  stdoutId : Nat
  stderrId : Nat
  args : List String
deriving Repr, DecidableEq

/-- NewArgContainer (app.go): the argument container is the list itself. -/
def NewArgContainer (args : List String) : List String := args

/-- newContainer (app.go): bundle the five facets. -/
def newContainer (env : EnvContainerM) (stdinId stdoutId stderrId : Nat)
    (args : List String) : Container :=
  ⟨env, stdinId, stdoutId, stderrId, args⟩

/-- NewContainerForArgs (app.go): reuse the base container for the
environment, stdin, stdout and stderr facets, replace the argument facet. -/
def NewContainerForArgs (container : Container) (newArgs : List String) : Container :=
  newContainer container.env container.stdinId container.stdoutId container.stderrId
    (NewArgContainer newArgs)

/-- NumArgs (argContainer): the number of arguments. -/
def Container.numArgs (c : Container) : Nat := c.args.length

/-- Arg (argContainer): the ith argument; the out-of-range panic of the Go
implementation is modelled as `none`. -/
def Container.arg (c : Container) (i : Nat) : Option String := c.args.get? i

/-- Args (app.go): rebuild the full argument list through NumArgs/Arg. -/
def Args (c : Container) : List String :=
  (List.range c.numArgs).map (fun i => (c.arg i).getD "")

theorem Args_eq (c : Container) : Args c = c.args := by
  apply List.ext_getElem
  · simp [Args, Container.numArgs]
  · intro i h1 h2
    simp [Args, Container.numArgs, Container.arg, List.get?_eq_getElem?,
      List.getElem?_eq_getElem h2]

/-- C10: NewContainerForArgs replaces only the argument facet — the
environment, stdin, stdout and stderr facets of the result are exactly the
base container's, while NumArgs, Arg and Args reflect exactly the
replacement list. (The base container itself is a value and is unchanged.) -/
theorem newContainerForArgs_frame (container : Container) (newArgs : List String) :
    (NewContainerForArgs container newArgs).env = container.env ∧
    (NewContainerForArgs container newArgs).stdinId = container.stdinId ∧
    (NewContainerForArgs container newArgs).stdoutId = container.stdoutId ∧
    (NewContainerForArgs container newArgs).stderrId = container.stderrId ∧
    (NewContainerForArgs container newArgs).numArgs = newArgs.length ∧
    (∀ i : Nat, (NewContainerForArgs container newArgs).arg i = newArgs.get? i) ∧
    Args (NewContainerForArgs container newArgs) = newArgs := by
  refine ⟨rfl, rfl, rfl, rfl, rfl, fun i => rfl, ?_⟩
  rw [Args_eq]
  rfl

/-- Witness for C10 at a concrete base container and replacement list. -/
theorem newContainerForArgs_frame_witness :
    (NewContainerForArgs ⟨⟨[("K", "v")]⟩, 3, 4, 5, ["old1", "old2"]⟩ ["n1"]).env = ⟨[("K", "v")]⟩ ∧
    (NewContainerForArgs ⟨⟨[("K", "v")]⟩, 3, 4, 5, ["old1", "old2"]⟩ ["n1"]).stdinId = 3 ∧
    Args (NewContainerForArgs ⟨⟨[("K", "v")]⟩, 3, 4, 5, ["old1", "old2"]⟩ ["n1"]) = ["n1"] := by
  have h := newContainerForArgs_frame ⟨⟨[("K", "v")]⟩, 3, 4, 5, ["old1", "old2"]⟩ ["n1"]
  exact ⟨h.1, h.2.1, h.2.2.2.2.2.2⟩

/-- strings.ToUpper restricted to the characters a valid application name
may contain (ASCII letters, digits, '-', '_'), where Go's Unicode ToUpper
agrees with per-character ASCII upper-casing. -/
def goToUpper (s : String) : String := String.mk (s.data.map Char.toUpper)

/-- strings.ReplaceAll(s, "-", "_"): with single-character old and new
strings this is per-character replacement. -/
def goReplaceAllDashUnderscore (s : String) : String :=
  String.mk (s.data.map (fun c => if c = '-' then '_' else c))

/-- getAppNameEnvPrefix (appext name container):
strings.ToUpper(strings.ReplaceAll(appName, "-", "_")) + "_". -/
def getAppNameEnvPrefix (appName : String) : String :=
  goToUpper (goReplaceAllDashUnderscore appName) ++ "_"

/-- The character set validateAppName accepts. -/
def isValidAppNameChar (c : Char) : Bool :=
  (decide ('a' ≤ c) && decide (c ≤ 'z')) || (decide ('A' ≤ c) && decide (c ≤ 'Z')) ||
    (decide ('0' ≤ c) && decide (c ≤ '9')) || c == '-' || c == '_'

/-- validateAppName (appext name container): non-empty, and every character
an ASCII letter, digit, '-' or '_'. -/
def validateAppName (appName : String) : Except String Unit :=
  if appName = "" then .error "empty application name"
  else if appName.data.all isValidAppNameChar then .ok ()
  else .error ("invalid application name: " ++ appName)

/-- Written from the spec's words for C7: upper-case the name, collapse
every run of non-alphanumeric characters to a single '_', append a trailing
'_'. The flag records whether the previous character was folded into an
underscore run. -/
def specCollapseAux : Bool → List Char → List Char
  | _, [] => []
  | prevUnderscore, c :: cs =>
    if c.isAlphanum then c.toUpper :: specCollapseAux false cs
    else if prevUnderscore then specCollapseAux true cs
    else '_' :: specCollapseAux true cs

/-- The prefix as the spec's sentence describes it (C7). -/
def specEnvPrefixCollapsed (appName : String) : String :=
  String.mk (specCollapseAux false appName.data) ++ "_"

/-- Counterexample to C7 as stated: "a--b" is a valid application name, the
code produces "A__B_" (each '-' mapped to '_' independently), but collapsing
the run of non-alphanumeric characters would produce "A_B_". -/
theorem envPrefix_collapse_counterexample :
    validateAppName "a--b" = .ok () ∧
    getAppNameEnvPrefix "a--b" = "A__B_" ∧
    specEnvPrefixCollapsed "a--b" = "A_B_" ∧
    getAppNameEnvPrefix "a--b" ≠ specEnvPrefixCollapsed "a--b" :=
  ⟨rfl, rfl, rfl, by decide⟩

/-- Per-character spelling of the amended C7: each '-' becomes '_', every
other character is upper-cased (runs are not collapsed). -/
def specEnvPrefixPerChar : List Char → List Char
  | [] => []
  | c :: cs => (if c = '-' then '_' else c.toUpper) :: specEnvPrefixPerChar cs

theorem specEnvPrefixPerChar_eq (l : List Char) :
    (l.map (fun c => if c = '-' then '_' else c)).map Char.toUpper =
      specEnvPrefixPerChar l := by
  induction l with
  | nil => rfl
  | cons c cs ih =>
    simp only [List.map_cons, specEnvPrefixPerChar, ih]
    by_cases h : c = '-' <;> simp [h]

/-- C7 amended: for every valid application name, the environment-variable
prefix used for the CONFIG_DIR / CACHE_DIR / DATA_DIR / PORT lookups is the
name upper-cased with each '-' replaced by a single '_' (runs of
non-alphanumeric characters are not collapsed), with a trailing '_'
appended. -/
theorem envPrefix_amended (appName : String)
    (hvalid : validateAppName appName = .ok ()) :
    getAppNameEnvPrefix appName = String.mk (specEnvPrefixPerChar appName.data) ++ "_" := by
  unfold getAppNameEnvPrefix goToUpper goReplaceAllDashUnderscore
  rw [specEnvPrefixPerChar_eq]

/-- Witness for C7's amended theorem at the valid name "my-app". -/
theorem envPrefix_amended_witness :
    validateAppName "my-app" = .ok () ∧
    getAppNameEnvPrefix "my-app" = String.mk (specEnvPrefixPerChar "my-app".data) ++ "_" :=
  ⟨rfl, envPrefix_amended "my-app" rfl⟩

/-- strings.HasPrefix(s, pre): pre is a leading piece of s. -/
def goStringHasPrefix (s pre : String) : Bool := pre.data.isPrefixOf s.data

/-- Argument routing of run (appcmd/appcmd.go lines 236–264): Go slices off
the first process argument (`app.Args(container)[1:]`, which panics when the
argument list is empty — modelled as `none`), hands the remainder to the
compiled tree, and chooses standard output as the help/usage sink exactly
when the first remaining argument has the "__complete" prefix; the sink is
standard error otherwise. The Bool in the result is true when the sink is
standard output. -/
def runRouting (container : Container) : Option (List String × Bool) :=
  match Args container with
  | [] => none
  | _ :: args =>
    some (args,
      match args with
      | [] => false
      | a0 :: _ => goStringHasPrefix a0 "__complete")

/-- Counterexample to C5 as stated: with process arguments
["prog", "x", "__complete"], one of the remaining arguments begins with
"__complete", yet the sink stays standard error (the code inspects only the
first remaining argument). -/
theorem runRouting_anyArg_counterexample :
    (∃ a ∈ ["x", "__complete"], goStringHasPrefix a "__complete" = true) ∧
    runRouting ⟨⟨[]⟩, 0, 1, 2, ["prog", "x", "__complete"]⟩ =
      some (["x", "__complete"], false) := by
  constructor
  · exact ⟨"__complete", by decide, by decide⟩
  · decide

/-- C5 amended: for every non-empty process-argument list, run drops exactly
the first process argument and hands the remainder to the compiled tree, and
the help/usage sink is standard output exactly when the first remaining
argument begins with "__complete" (on an empty argument list the slice
expression panics). -/
theorem runRouting_amended (env : EnvContainerM) (i o e : Nat)
    (first : String) (rest : List String) :
    runRouting ⟨env, i, o, e, first :: rest⟩ =
      some (rest,
        match rest with
        | [] => false
        | a0 :: _ => goStringHasPrefix a0 "__complete") := by
  have h : Args ⟨env, i, o, e, first :: rest⟩ = first :: rest := Args_eq _
  unfold runRouting
  rw [h]

/-- Command (appcmd/appcmd.go), restricted to the fields the claims are
about: Use, Short, Long, Version, the leaf action Run (a Go function taking
a container and returning a nilable error), and SubCommands. The remaining
fields (aliases, deprecation, hidden flag, flag binding, ModifyCobra) do not
enter the validated or proved properties. -/
inductive Command where
  | mk (use : String) (short : String) (long : String) (version : String)
       (run : Option (Container → Option GoError)) (subCommands : List Command)

def Command.use : Command → String
  | .mk u _ _ _ _ _ => u

def Command.short : Command → String
  | .mk _ s _ _ _ _ => s

def Command.long : Command → String
  | .mk _ _ l _ _ _ => l

def Command.version : Command → String
  | .mk _ _ _ v _ _ => v

def Command.run : Command → Option (Container → Option GoError)
  | .mk _ _ _ _ r _ => r

def Command.subCommands : Command → List Command
  | .mk _ _ _ _ _ subs => subs

/-- commandValidate (appcmd/appcmd.go lines 377–391). -/
def commandValidate (c : Command) : Except String Unit :=
  if c.use == "" then .error "must set Command.Use"
  else if c.long != "" && c.short == "" then
    .error "must set Command.Short if Command.Long is set"
  else if c.run.isSome && !c.subCommands.isEmpty then
    .error "cannot set both Command.Run and Command.SubCommands"
  else if !c.run.isSome && c.subCommands.isEmpty then
    .error "must set one of Command.Run and Command.SubCommands"
  else .ok ()

mutual

/-- The validation part of commandToCobra's recursion: validate the node,
then each sub-command's tree in order; the first error aborts the build. -/
def buildValidate : Command → Except String Unit
  | .mk u s l v r subs =>
    match commandValidate (.mk u s l v r subs) with
    | .error e => .error e
    | .ok _ => buildValidateList subs

def buildValidateList : List Command → Except String Unit
  | [] => .ok ()
  | c :: cs =>
    match buildValidate c with
    | .error e => .error e
    | .ok _ => buildValidateList cs

end

mutual

/-- Every node of a command tree: the node itself and, recursively, the
nodes of its sub-command trees. -/
def subCommandsClosure : Command → List Command
  | .mk u s l v r subs => .mk u s l v r subs :: subCommandsClosureList subs

def subCommandsClosureList : List Command → List Command
  | [] => []
  | c :: cs => subCommandsClosure c ++ subCommandsClosureList cs

end

/-- The four validation rules of the spec, as one predicate on a node: the
usage string is non-empty, Long set requires Short set, a Run action and a
non-empty SubCommands set are not both present, and one of them is. -/
def specNodeValid (d : Command) : Prop :=
  d.use ≠ "" ∧ (d.long ≠ "" → d.short ≠ "") ∧
    ¬(d.run.isSome = true ∧ d.subCommands ≠ []) ∧
    (d.run.isSome = true ∨ d.subCommands ≠ [])

theorem commandValidate_ok_iff (c : Command) :
    commandValidate c = .ok () ↔ specNodeValid c := by
  unfold commandValidate specNodeValid
  by_cases h1 : c.use = ""
  · simp [h1]
  · by_cases h2 : c.long = "" <;> by_cases h3 : c.short = "" <;>
      by_cases h4 : c.run.isSome = true <;> by_cases h5 : c.subCommands = [] <;>
      simp [h1, h2, h3, h4, h5, List.isEmpty_iff]

mutual

theorem buildValidate_ok_aux : ∀ (c : Command),
    buildValidate c = .ok () ↔ ∀ d ∈ subCommandsClosure c, specNodeValid d
  | .mk u s l v r subs => by
    have ih := buildValidateList_ok_aux subs
    unfold buildValidate subCommandsClosure
    match hv : commandValidate (.mk u s l v r subs) with
    | .error e =>
      simp only []
      constructor
      · intro h
        exact absurd h (by simp)
      · intro h
        have h0 := h (.mk u s l v r subs) (List.mem_cons_self _ _)
        rw [← commandValidate_ok_iff] at h0
        rw [hv] at h0
        exact absurd h0 (by simp)
    | .ok _ =>
      simp only []
      rw [ih]
      constructor
      · intro h d hd
        rcases List.mem_cons.mp hd with h1 | h1
        · subst h1
          exact (commandValidate_ok_iff _).mp hv
        · exact h d h1
      · intro h d hd
        exact h d (List.mem_cons_of_mem _ hd)

theorem buildValidateList_ok_aux : ∀ (l : List Command),
    buildValidateList l = .ok () ↔ ∀ d ∈ subCommandsClosureList l, specNodeValid d
  | [] => by simp [buildValidateList, subCommandsClosureList]
  | c :: cs => by
    have ih1 := buildValidate_ok_aux c
    have ih2 := buildValidateList_ok_aux cs
    unfold buildValidateList subCommandsClosureList
    match hv : buildValidate c with
    | .error e =>
      simp only []
      constructor
      · intro h
        exact absurd h (by simp)
      · intro h
        have h0 : buildValidate c = .ok () := by
          rw [ih1]
          intro d hd
          exact h d (List.mem_append.mpr (Or.inl hd))
        rw [hv] at h0
        exact absurd h0 (by simp)
    | .ok _ =>
      simp only []
      rw [ih2]
      constructor
      · intro h d hd
        rcases List.mem_append.mp hd with h1 | h1
        · have h0 : buildValidate c = .ok () := hv
          rw [ih1] at h0
          exact h0 d h1
        · exact h d h1
      · intro h d hd
        exact h d (List.mem_append.mpr (Or.inr hd))

end

/-- C2: building the command tree fails before any execution exactly when
some node of the tree (the root or any descendant) violates one of the four
validation rules — empty usage string, Long set with Short empty, both a Run
action and a non-empty SubCommands set, or neither — and succeeds in
validation otherwise; a descendant's failure aborts the whole build. -/
theorem buildValidate_ok_iff (c : Command) :
    buildValidate c = .ok () ↔
      ∀ d ∈ subCommandsClosure c,
        d.use ≠ "" ∧ (d.long ≠ "" → d.short ≠ "") ∧
          ¬(d.run.isSome = true ∧ d.subCommands ≠ []) ∧
          (d.run.isSome = true ∨ d.subCommands ≠ []) :=
  buildValidate_ok_aux c

/-- Witness for C2: a concrete two-level tree (a parent with one leaf) is
accepted, and a tree whose leaf misses its Run action is rejected. -/
theorem buildValidate_ok_iff_witness :
    buildValidate (.mk "parent" "short" "" "" none
        [.mk "child" "short" "" "" (some (fun _ => none)) []]) = .ok () ∧
    buildValidate (.mk "parent" "short" "" "" none
        [.mk "child" "short" "" "" none []]) ≠ .ok () := by
  constructor
  · rw [buildValidate_ok_iff]
    intro d hd
    simp only [subCommandsClosure, subCommandsClosureList, List.append_nil,
      List.mem_cons, List.not_mem_nil, or_false] at hd
    rcases hd with h | h <;> subst h
    · exact ⟨by decide, by decide, fun hc => absurd hc.1 (by decide),
        Or.inr (List.cons_ne_nil _ _)⟩
    · exact ⟨by decide, by decide, fun hc => absurd rfl hc.2, Or.inl rfl⟩
  · intro hcontra
    rw [buildValidate_ok_iff] at hcontra
    have hmem : (Command.mk "child" "short" "" "" none []) ∈
        subCommandsClosure (.mk "parent" "short" "" "" none
          [.mk "child" "short" "" "" none []]) := by
      simp only [subCommandsClosure, subCommandsClosureList, List.append_nil,
        List.mem_cons, List.not_mem_nil, or_false]
      exact Or.inr trivial
    have h := hcontra _ hmem
    rcases h.2.2.2 with h1 | h1
    · exact absurd h1 (by decide)
    · exact h1 rfl

/-- Execution state of one invocation: the chunks written to stdout and to
stderr (in order), and the shared "last error" slot *runErrAddr. -/
structure ExecState where
  stdoutLines : List String
  stderrLines : List String
  runErr : Option GoError
deriving Repr, DecidableEq

/-- printUsage (appcmd/appcmd.go lines 399–401): write usage plus a newline
to the container's stderr. -/
def printUsage (s : ExecState) (usage : String) : ExecState :=
  { s with stderrLines := s.stderrLines ++ [usage ++ "\n"] }

/-- errors.As with target type *invalidArgumentError: walk the unwrap
chain looking for the invalid-argument error. -/
def hasInvalidArgumentInChain : GoError → Bool
  | .msg _ => false
  | .wrap _ e => hasInvalidArgumentInChain e
  | .app _ e => hasInvalidArgumentInChain e
  | .invalidArgument _ => true

/-- errors.As(runErr, &invalidArgumentError{}) on a nilable error: false on
nil. -/
def asInvalidArgument : Option GoError → Bool
  | none => false
  | some e => hasInvalidArgumentInChain e

/-- Inputs cobra hands a Run closure after flag parsing: the remaining
positional arguments and the parsed values of the --version and --help-tree
flags (false whenever the flag is not registered, since cobra rejects
unknown flags). -/
structure RunInput where
  args : List String
  versionFlag : Bool
  helpTreeFlag : Bool
deriving Repr, DecidableEq

/-- The leaf Run closure (appcmd/appcmd.go lines 323–334): run the action on
the container with its argument facet replaced by the positional arguments;
if the resulting error chain holds an invalid-argument error, print this
command's usage string to stderr; store the raw error in the shared slot. -/
def leafRun (container : Container) (action : Container → Option GoError)
    (usageString : String) (input : RunInput) (s : ExecState) : ExecState :=
  let runErr := action (NewContainerForArgs container input.args)
  let s1 := if asInvalidArgument runErr then printUsage s usageString else s
  { s1 with runErr := runErr }

/-- The synthetic parent Run closure (appcmd/appcmd.go lines 337–344):
always print usage to stderr, then record "Sub-command required." when no
positional arguments remain, else "Unknown sub-command: " with the
arguments joined by spaces. -/
def parentRun (usageString : String) (input : RunInput) (s : ExecState) : ExecState :=
  let s1 := printUsage s usageString
  if input.args = [] then
    { s1 with runErr := some (.msg "Sub-command required.") }
  else
    { s1 with runErr := some (.msg ("Unknown sub-command: " ++ String.intercalate " " input.args)) }

/-- addHelpTreeFlag (appcmd/appcmd.go lines 403–424): when --help-tree is
set, write the help tree to stdout (recording the write error, modelled as
successful) instead of the wrapped closure. -/
def helpTreeRun (helpTreeOutput : String) (oldRun : RunInput → ExecState → ExecState)
    (input : RunInput) (s : ExecState) : ExecState :=
  if input.helpTreeFlag then
    { s with stdoutLines := s.stdoutLines ++ [helpTreeOutput], runErr := none }
  else oldRun input s

/-- The --version wrapper (appcmd/appcmd.go lines 354–371): when --version
is set, write the version string plus newline to stdout (recording the
write error, modelled as successful) and do nothing else; otherwise run the
wrapped closure. A `none` wrapped closure corresponds to a nil cobra Run
field, which only an invalid command produces (Go would panic there); it is
modelled as a no-op and is unreachable under validation. -/
def versionRun (version : String) (oldRun : Option (RunInput → ExecState → ExecState))
    (input : RunInput) (s : ExecState) : ExecState :=
  if input.versionFlag then
    { s with stdoutLines := s.stdoutLines ++ [version ++ "\n"], runErr := none }
  else
    match oldRun with
    | some f => f input s
    | none => s

/-- The Run closure commandToCobra installs for one node (appcmd/appcmd.go
lines 323–371): the leaf closure if Run is set; overwritten by the
help-tree-wrapped synthetic parent closure if SubCommands is non-empty;
finally wrapped by the version closure if Version is set. `usageString`
stands for this cobra command's UsageString() and `helpTreeOutput` for
helpTreeString of this node (both produced by the external cobra library).
`none` means the node's Run field stays nil. -/
def commandRunClosure (container : Container) (usageString helpTreeOutput : String)
    (c : Command) : Option (RunInput → ExecState → ExecState) :=
  let r0 : Option (RunInput → ExecState → ExecState) := none
  let r1 := match c.run with
    | some action => some (leafRun container action usageString)
    | none => r0
  let r2 := if c.subCommands.isEmpty then r1
    else some (helpTreeRun helpTreeOutput (parentRun usageString))
  if c.version = "" then r2 else some (versionRun c.version r2)

theorem commandRunClosure_parent (container : Container) (usageString helpTreeOutput : String)
    (c : Command) (hsub : c.subCommands.isEmpty = false) :
    commandRunClosure container usageString helpTreeOutput c =
      if c.version = "" then some (helpTreeRun helpTreeOutput (parentRun usageString))
      else some (versionRun c.version (some (helpTreeRun helpTreeOutput (parentRun usageString)))) := by
  unfold commandRunClosure
  rw [hsub]
  rfl

theorem commandRunClosure_leaf (container : Container) (usageString helpTreeOutput : String)
    (c : Command) (action : Container → Option GoError)
    (hrun : c.run = some action) (hsub : c.subCommands.isEmpty = true) :
    commandRunClosure container usageString helpTreeOutput c =
      if c.version = "" then some (leafRun container action usageString)
      else some (versionRun c.version (some (leafRun container action usageString))) := by
  unfold commandRunClosure
  rw [hrun, hsub]
  rfl

/-- C3: invoking a parent command (one with children) without a valid child
selected runs its synthetic closure, which writes the parent's usage text to
standard error and records the error "Sub-command required." when zero
positional arguments remain, or "Unknown sub-command: a b" (the extra
arguments space-joined) when one or more remain. -/
theorem parentCommand_noChild (container : Container) (usageString helpTreeOutput : String)
    (c : Command) (input : RunInput) (s : ExecState)
    (hsub : c.subCommands.isEmpty = false)
    (hht : input.helpTreeFlag = false)
    (hv : c.version = "" ∨ input.versionFlag = false) :
    ∃ f, commandRunClosure container usageString helpTreeOutput c = some f ∧
      f input s = { s with
        stderrLines := s.stderrLines ++ [usageString ++ "\n"],
        runErr := some (if input.args = [] then GoError.msg "Sub-command required."
          else GoError.msg ("Unknown sub-command: " ++ String.intercalate " " input.args)) } := by
  rw [commandRunClosure_parent container usageString helpTreeOutput c hsub]
  have hbody : helpTreeRun helpTreeOutput (parentRun usageString) input s =
      { s with
        stderrLines := s.stderrLines ++ [usageString ++ "\n"],
        runErr := some (if input.args = [] then GoError.msg "Sub-command required."
          else GoError.msg ("Unknown sub-command: " ++ String.intercalate " " input.args)) } := by
    by_cases ha : input.args = [] <;>
      simp [helpTreeRun, hht, parentRun, printUsage, ha]
  by_cases hver : c.version = ""
  · rw [if_pos hver]
    exact ⟨_, rfl, hbody⟩
  · rw [if_neg hver]
    refine ⟨_, rfl, ?_⟩
    have hflag : input.versionFlag = false := hv.resolve_left hver
    simp only [versionRun]
    rw [if_neg (by rw [hflag]; exact Bool.false_ne_true)]
    exact hbody

/-- Witness fixtures: a trivial action, a failing action, and small
commands built from them. -/
def sampleAction : Container → Option GoError := fun _ => none

def sampleLeafCmd : Command := .mk "child" "short" "" "" (some sampleAction) []

def sampleParentCmd : Command := .mk "parent" "short" "" "" none [sampleLeafCmd]

def sampleContainer : Container := ⟨⟨[]⟩, 0, 1, 2, ["prog"]⟩

/-- Witness for C3: the parent invoked with extra arguments ["a", "b"]
writes its usage and records "Unknown sub-command: a b". -/
theorem parentCommand_noChild_witness :
    ∃ f, commandRunClosure sampleContainer "usage-p" "tree" sampleParentCmd = some f ∧
      f ⟨["a", "b"], false, false⟩ ⟨[], [], none⟩ =
        ⟨[], ["usage-p\n"], some (.msg "Unknown sub-command: a b")⟩ := by
  obtain ⟨f, h1, h2⟩ := parentCommand_noChild sampleContainer "usage-p" "tree" sampleParentCmd
    ⟨["a", "b"], false, false⟩ ⟨[], [], none⟩ rfl rfl (Or.inl rfl)
  exact ⟨f, h1, h2.trans (by decide)⟩

/-- C4: a leaf command whose action returns an error whose chain holds an
invalid-argument error writes the usage string of that leaf itself (the one
captured by its own closure) to standard error exactly once, and records
the raw, unreplaced error in the shared last-error slot. The action runs on
the container with its argument facet replaced by the positional
arguments. -/
theorem leafInvalidArgument_usage (container : Container) (usageString helpTreeOutput : String)
    (c : Command) (action : Container → Option GoError) (input : RunInput) (s : ExecState)
    (e : GoError)
    (hrun : c.run = some action)
    (hsub : c.subCommands.isEmpty = true)
    (hv : c.version = "" ∨ input.versionFlag = false)
    (hact : action (NewContainerForArgs container input.args) = some e)
    (hinv : hasInvalidArgumentInChain e = true) :
    ∃ f, commandRunClosure container usageString helpTreeOutput c = some f ∧
      f input s = { s with
        stderrLines := s.stderrLines ++ [usageString ++ "\n"],
        runErr := some e } := by
  rw [commandRunClosure_leaf container usageString helpTreeOutput c action hrun hsub]
  have hbody : leafRun container action usageString input s =
      { s with
        stderrLines := s.stderrLines ++ [usageString ++ "\n"],
        runErr := some e } := by
    simp [leafRun, hact, asInvalidArgument, hinv, printUsage]
  by_cases hver : c.version = ""
  · rw [if_pos hver]
    exact ⟨_, rfl, hbody⟩
  · rw [if_neg hver]
    refine ⟨_, rfl, ?_⟩
    have hflag : input.versionFlag = false := hv.resolve_left hver
    simp only [versionRun]
    rw [if_neg (by rw [hflag]; exact Bool.false_ne_true)]
    exact hbody

def sampleBadAction : Container → Option GoError :=
  fun _ => some (.invalidArgument (.msg "bad args"))

def sampleBadLeafCmd : Command := .mk "leaf" "short" "" "" (some sampleBadAction) []

/-- Witness for C4: the failing leaf's own usage is written once and its
raw error is recorded. -/
theorem leafInvalidArgument_usage_witness :
    ∃ f, commandRunClosure sampleContainer "usage-l" "tree" sampleBadLeafCmd = some f ∧
      f ⟨["x"], false, false⟩ ⟨[], [], none⟩ =
        ⟨[], ["usage-l\n"], some (.invalidArgument (.msg "bad args"))⟩ := by
  obtain ⟨f, h1, h2⟩ := leafInvalidArgument_usage sampleContainer "usage-l" "tree"
    sampleBadLeafCmd sampleBadAction ⟨["x"], false, false⟩ ⟨[], [], none⟩
    (.invalidArgument (.msg "bad args")) rfl rfl (Or.inl rfl) rfl rfl
  exact ⟨f, h1, h2.trans (by decide)⟩

/-- C6: a command configured with a non-empty Version string, invoked with
the --version flag set, writes exactly the version string followed by one
newline to standard output and performs no other action — the leaf action,
the sub-command dispatch closure and the help-tree handler inside the
wrapped closure are all skipped (the state changes in no other way). -/
theorem versionFlag_shortCircuit (container : Container) (usageString helpTreeOutput : String)
    (c : Command) (input : RunInput) (s : ExecState)
    (hver : c.version ≠ "") (hflag : input.versionFlag = true) :
    ∃ f, commandRunClosure container usageString helpTreeOutput c = some f ∧
      f input s = { s with
        stdoutLines := s.stdoutLines ++ [c.version ++ "\n"],
        runErr := none } := by
  unfold commandRunClosure
  rw [if_neg hver]
  refine ⟨_, rfl, ?_⟩
  simp only [versionRun]
  rw [if_pos hflag]

def sampleVersionCmd : Command := .mk "root" "short" "" "1.2.3" (some sampleAction) []

/-- Witness for C6: --version on a command with Version "1.2.3" writes
exactly "1.2.3\n" to stdout, leaves stderr empty, and skips the action. -/
theorem versionFlag_shortCircuit_witness :
    ∃ f, commandRunClosure sampleContainer "usage-v" "tree" sampleVersionCmd = some f ∧
      f ⟨[], true, false⟩ ⟨[], [], none⟩ = ⟨["1.2.3\n"], [], none⟩ := by
  obtain ⟨f, h1, h2⟩ := versionFlag_shortCircuit sampleContainer "usage-v" "tree"
    sampleVersionCmd ⟨[], true, false⟩ ⟨[], [], none⟩ (by decide) rfl
  exact ⟨f, h1, h2.trans (by decide)⟩

end AppGo
